import Mathlib

/-!
A shallow embedding of `src/block_device/block_cache.py`: the `Block` and
`BlockCache` classes and their public operations.  Python objects become
immutable Lean structures and mutation becomes explicit state passing.
A Python `AssertionError` (a failing `assert` statement) is modelled by an
operation returning `none` at the outer `Option` layer: the operation does
not complete and produces no successor state.  The block table (a Python
dict keyed by block id) is modelled as a `List Block` looked up by the
`blk_id` field; the two queues (Python lists of ids) are `List Nat` with
`List.erase` playing the role of `list.remove` (first occurrence) and
`· ++ [id]` the role of `list.append`.  The owning cache reference stored
in each block (`__blk_cache`) is modelled by a Boolean `owner` field that
is `true` exactly when the block records this cache as its owner and
`false` when it is detached (`None` in Python).
-/

/-- Mirror of the Python `Block` class state: owner reference (modelled as
a Boolean: attached to the one cache under study or detached), block id,
block size, buffer contents, reference count and the two flags. -/
structure Block where
  owner : Bool
  blk_id : Nat
  blk_size : Nat
  buf : List Nat
  ref_count : Nat
  uptodate : Bool
  dirty : Bool
  deriving DecidableEq, Repr

/-- Mirror of `Block.ref_inc`. -/
def Block.refInc (b : Block) : Block :=
  { b with ref_count := b.ref_count + 1 }

/-- Mirror of the decrement performed by `Block.ref_dec` (its
`assert ref_cnt > 0` guard is handled at the call site in `putBlock`). -/
def Block.refDec (b : Block) : Block :=
  { b with ref_count := b.ref_count - 1 }

/-- Mirror of `Block.move_blk_cache`: reassigns owner and id, resets the
reference count to 0 and clears both the dirty and the uptodate flag. -/
def Block.moveBlkCache (b : Block) (newOwner : Bool) (newId : Nat) : Block :=
  { b with owner := newOwner, blk_id := newId, ref_count := 0,
           dirty := false, uptodate := false }

/-- Mirror of the `BlockCache` state: the block table `__cache`, the two
queues `__dirty_queue` and `__lru_queue`, and the two construction
parameters `__blk_size` and `__blk_limit`. -/
structure BlockCache where
  cache : List Block
  dirty_queue : List Nat
  lru_queue : List Nat
  blk_size : Nat
  blk_limit : Nat
  deriving DecidableEq, Repr

/-- Mirror of `BlockCache.__init__`: empty table and queues. -/
def initCache (blkSize blkLimit : Nat) : BlockCache :=
  { cache := [], dirty_queue := [], lru_queue := [],
    blk_size := blkSize, blk_limit := blkLimit }

/-- Lookup in the block table by block id (the Python dict access). -/
def findBlk : List Block → Nat → Option Block
  | [], _ => none
  | b :: l, id => if b.blk_id = id then some b else findBlk l id

/-- Mirror of `BlockCache.__get_block`. -/
def getBlock (c : BlockCache) (id : Nat) : Option Block :=
  findBlk c.cache id

/-- Removal from the block table by id (the Python `dict.pop`). -/
def eraseBlock : List Block → Nat → List Block
  | [], _ => []
  | b :: l, id => if b.blk_id = id then eraseBlock l id else b :: eraseBlock l id

/-- In-place mutation of the table entry with the given id (a Python
method call on the shared block object reflected into the table). -/
def mapBlock (f : Block → Block) : List Block → Nat → List Block
  | [], _ => []
  | b :: l, id => (if b.blk_id = id then f b else b) :: mapBlock f l id

/-- Mirror of the `count` property (`len(self.__cache)`). -/
def BlockCache.count (c : BlockCache) : Nat :=
  c.cache.length

/-- Mirror of the `lru_count` property. -/
def BlockCache.lruCount (c : BlockCache) : Nat :=
  c.lru_queue.length

/-- Mirror of the `dirty_count` property. -/
def BlockCache.dirtyCount (c : BlockCache) : Nat :=
  c.dirty_queue.length

/-- Mirror of the `is_full` property. -/
def BlockCache.isFull (c : BlockCache) : Bool :=
  decide (c.blk_limit ≤ c.count) && decide (c.lru_queue = [])

/-- Mirror of `BlockCache.find_get_block`.  Returns `none` when an
internal `assert` fails (the block claims to be idle but is missing from
the queue its flags select); otherwise returns the block handed to the
caller (post-increment) and the successor cache state. -/
def findGetBlock (c : BlockCache) (id : Nat) : Option (Option Block × BlockCache) :=
  match getBlock c id with
  | none => some (none, c)
  | some b =>
    if b.ref_count = 0 then
      if b.dirty then
        if id ∈ c.dirty_queue then
          some (some b.refInc,
            { c with dirty_queue := c.dirty_queue.erase id,
                     cache := mapBlock Block.refInc c.cache id })
        else none
      else
        if id ∈ c.lru_queue then
          some (some b.refInc,
            { c with lru_queue := c.lru_queue.erase id,
                     cache := mapBlock Block.refInc c.cache id })
        else none
    else
      some (some b.refInc, { c with cache := mapBlock Block.refInc c.cache id })

/-- Mirror of `BlockCache.put_block`.  `none` models a failing `assert`:
the block is not in this cache's table (`__contains_block`) or its
reference count is already 0 (`ref_dec`). -/
def putBlock (c : BlockCache) (id : Nat) : Option BlockCache :=
  match getBlock c id with
  | none => none
  | some b =>
    if b.ref_count = 0 then none
    else
      if b.ref_count - 1 = 0 then
        if b.uptodate then
          if b.dirty then
            some { c with cache := mapBlock Block.refDec c.cache id,
                          dirty_queue := c.dirty_queue ++ [id] }
          else
            some { c with cache := mapBlock Block.refDec c.cache id,
                          lru_queue := c.lru_queue ++ [id] }
        else
          some { c with cache := eraseBlock c.cache id }
      else
        some { c with cache := mapBlock Block.refDec c.cache id }

/-- Mirror of `BlockCache.alloc_block`.  `none` models a failing internal
`assert` (the popped LRU id has no backing table entry, or
`assert self.__add_block(block)` fails because the requested id is
already a table key). -/
def allocBlock (c : BlockCache) (id : Nat) : Option (Option Block × BlockCache) :=
  if c.blk_limit ≤ c.cache.length then
    match c.lru_queue with
    | [] => some (none, c)
    | h :: _ =>
      if h = id then
        match findBlk c.cache id with
        | none => none
        | some b =>
          some (some b.refInc,
            { c with lru_queue := c.lru_queue.erase h,
                     cache := mapBlock Block.refInc c.cache id })
      else
        match findBlk c.cache h with
        | none => none
        | some bh =>
          match findBlk (eraseBlock c.cache h) id with
          | some _ => none
          | none =>
            some (some ((bh.moveBlkCache false h).moveBlkCache true id).refInc,
              { c with lru_queue := c.lru_queue.erase h,
                       cache := ((bh.moveBlkCache false h).moveBlkCache true id).refInc ::
                                  eraseBlock c.cache h })
  else
    if (getBlock c id).isSome then
      some (none, c)
    else
      let b : Block :=
        { owner := true, blk_id := id, blk_size := c.blk_size,
          buf := List.replicate c.blk_size 0, ref_count := 1,
          uptodate := false, dirty := false }
      some (some b, { c with cache := b :: c.cache })

/-- Mirror of `BlockCache.get_lru_block`. -/
def getLruBlock (c : BlockCache) : Option (Option Block × BlockCache) :=
  match c.lru_queue with
  | [] => some (none, c)
  | h :: _ =>
    match findGetBlock c h with
    | none => none
    | some (none, _) => none
    | some (some b, c') => some (some b, c')

/-- Mirror of `BlockCache.get_dirty_block`. -/
def getDirtyBlock (c : BlockCache) : Option (Option Block × BlockCache) :=
  match c.dirty_queue with
  | [] => some (none, c)
  | h :: _ =>
    match findGetBlock c h with
    | none => none
    | some (none, _) => none
    | some (some b, c') => some (some b, c')

/-- Mirror of `BlockCache.drop_block` applied to a block currently keyed
in this cache's table under `id` (for a foreign or detached block the
`__contains_block` guard fails, matching the `getBlock = none` branch).
Returns the Boolean result, the final state of the dropped block object
after `__pop_block` ran `move_blk_cache(None, blk_id)` on it, and the
successor cache state. -/
def dropBlock (c : BlockCache) (id : Nat) : Bool × Option Block × BlockCache :=
  match getBlock c id with
  | none => (false, none, c)
  | some b =>
    if 1 < b.ref_count then (false, none, c)
    else (true, some (b.moveBlkCache false id),
          { c with cache := eraseBlock c.cache id })

/-- Caller-side flag mutation `Block.set_dirty` on a table entry. -/
def setDirtyOp (c : BlockCache) (id : Nat) : BlockCache :=
  { c with cache := mapBlock (fun b => { b with dirty := true }) c.cache id }

/-- Caller-side flag mutation `Block.clear_dirty` on a table entry. -/
def clearDirtyOp (c : BlockCache) (id : Nat) : BlockCache :=
  { c with cache := mapBlock (fun b => { b with dirty := false }) c.cache id }

/-- Caller-side flag mutation `Block.set_uptodate` on a table entry. -/
def setUptodateOp (c : BlockCache) (id : Nat) : BlockCache :=
  { c with cache := mapBlock (fun b => { b with uptodate := true }) c.cache id }

/-- Caller-side flag mutation `Block.clear_uptodate` on a table entry. -/
def clearUptodateOp (c : BlockCache) (id : Nat) : BlockCache :=
  { c with cache := mapBlock (fun b => { b with uptodate := false }) c.cache id }

/-- One public operation on the cache, including the caller-side flag
mutations on blocks the caller holds. -/
inductive Op where
  | alloc (id : Nat)
  | findGet (id : Nat)
  | put (id : Nat)
  | getLru
  | getDirty
  | drop (id : Nat)
  | setDirty (id : Nat)
  | clearDirty (id : Nat)
  | setUptodate (id : Nat)
  | clearUptodate (id : Nat)
  deriving DecidableEq, Repr

/-- State transition of one operation, discarding the returned value;
`none` when the operation aborts on a failing `assert`. -/
def step (c : BlockCache) : Op → Option BlockCache
  | .alloc id => (allocBlock c id).map Prod.snd
  | .findGet id => (findGetBlock c id).map Prod.snd
  | .put id => putBlock c id
  | .getLru => (getLruBlock c).map Prod.snd
  | .getDirty => (getDirtyBlock c).map Prod.snd
  | .drop id => some (dropBlock c id).2.2
  | .setDirty id => some (setDirtyOp c id)
  | .clearDirty id => some (clearDirtyOp c id)
  | .setUptodate id => some (setUptodateOp c id)
  | .clearUptodate id => some (clearUptodateOp c id)

/-- Run a sequence of operations; defined only when every operation
completes without a failing `assert`. -/
def runOps (c : BlockCache) : List Op → Option BlockCache
  | [] => some c
  | o :: os => (step c o).bind (fun c' => runOps c' os)

/-- Discipline guard used in the amended reachability claim: `drop` is
only applied to blocks whose reference count is nonzero (the caller still
holds its reference); every other operation is unrestricted. -/
def stepOkB (c : BlockCache) : Op → Bool
  | .drop id =>
    match getBlock c id with
    | none => true
    | some b => decide (b.ref_count ≠ 0)
  | _ => true

/-- Run a sequence of operations, all of which satisfy the discipline
guard in the state where they execute. -/
def runOk (c : BlockCache) : List Op → Option BlockCache
  | [] => some c
  | o :: os =>
    if stepOkB c o then (step c o).bind (fun c' => runOk c' os) else none

/-- The queue-membership invariant claimed by the specification: every id
in either queue is a table key whose block is idle, the queues have no
duplicates and are disjoint, and every idle table block is in one of the
two queues. -/
def cacheInv (c : BlockCache) : Prop :=
  (∀ id ∈ c.lru_queue, ∃ b, getBlock c id = some b ∧ b.ref_count = 0) ∧
  (∀ id ∈ c.dirty_queue, ∃ b, getBlock c id = some b ∧ b.ref_count = 0) ∧
  c.lru_queue.Nodup ∧
  c.dirty_queue.Nodup ∧
  (∀ id ∈ c.lru_queue, id ∉ c.dirty_queue) ∧
  (∀ b ∈ c.cache, b.ref_count = 0 → b.blk_id ∈ c.lru_queue ∨ b.blk_id ∈ c.dirty_queue)

/-- Well-formedness carried through the reachability proof: distinct
table keys together with the claimed queue invariant. -/
def Wf (c : BlockCache) : Prop :=
  (c.cache.map Block.blk_id).Nodup ∧ cacheInv c

/-! Helper lemmas about the table primitives. -/

theorem findBlk_eq_some {l : List Block} {id : Nat} {b : Block}
    (h : findBlk l id = some b) : b ∈ l ∧ b.blk_id = id := by
  induction l with
  | nil => simp [findBlk] at h
  | cons a l ih =>
    by_cases ha : a.blk_id = id
    · simp [findBlk, ha] at h
      exact ⟨by simp [← h], by rw [← h]; exact ha⟩
    · simp [findBlk, ha] at h
      rcases ih h with ⟨h1, h2⟩
      exact ⟨List.mem_cons_of_mem _ h1, h2⟩

theorem findBlk_eq_none {l : List Block} {id : Nat} :
    findBlk l id = none ↔ ∀ b ∈ l, b.blk_id ≠ id := by
  induction l with
  | nil => simp [findBlk]
  | cons a l ih =>
    by_cases ha : a.blk_id = id
    · simp [findBlk, ha]
    · simp [findBlk, ha, ih]

theorem findBlk_mapBlock_self {f : Block → Block} {l : List Block} {id : Nat}
    (hf : ∀ b, (f b).blk_id = b.blk_id) :
    findBlk (mapBlock f l id) id = (findBlk l id).map f := by
  induction l with
  | nil => simp [findBlk, mapBlock]
  | cons a l ih =>
    by_cases ha : a.blk_id = id
    · simp [findBlk, mapBlock, ha, hf a]
    · simp [findBlk, mapBlock, ha, ih]

theorem findBlk_mapBlock_ne {f : Block → Block} {l : List Block} {id j : Nat}
    (hf : ∀ b, (f b).blk_id = b.blk_id) (hj : j ≠ id) :
    findBlk (mapBlock f l id) j = findBlk l j := by
  induction l with
  | nil => simp [findBlk, mapBlock]
  | cons a l ih =>
    by_cases ha : a.blk_id = id
    · have h2 : (f a).blk_id ≠ j := by rw [hf a, ha]; exact fun hc => hj hc.symm
      have h3 : a.blk_id ≠ j := by rw [ha]; exact fun hc => hj hc.symm
      simp only [mapBlock, if_pos ha, findBlk, if_neg h2, if_neg h3, ih]
    · by_cases haj : a.blk_id = j
      · simp only [mapBlock, if_neg ha, findBlk, if_pos haj]
      · simp only [mapBlock, if_neg ha, findBlk, if_neg haj, ih]

theorem findBlk_eraseBlock_self {l : List Block} {id : Nat} :
    findBlk (eraseBlock l id) id = none := by
  induction l with
  | nil => simp [findBlk, eraseBlock]
  | cons a l ih =>
    by_cases ha : a.blk_id = id
    · simp [eraseBlock, ha, ih]
    · simp [eraseBlock, findBlk, ha, ih]

theorem findBlk_eraseBlock_ne {l : List Block} {id j : Nat} (hj : j ≠ id) :
    findBlk (eraseBlock l id) j = findBlk l j := by
  induction l with
  | nil => simp [findBlk, eraseBlock]
  | cons a l ih =>
    by_cases ha : a.blk_id = id
    · have h3 : a.blk_id ≠ j := by rw [ha]; exact fun hc => hj hc.symm
      simp only [eraseBlock, if_pos ha, ih, findBlk, if_neg h3]
    · by_cases haj : a.blk_id = j
      · simp only [eraseBlock, if_neg ha, findBlk, if_pos haj]
      · simp only [eraseBlock, if_neg ha, findBlk, if_neg haj, ih]

theorem mem_mapBlock {f : Block → Block} {l : List Block} {id : Nat} {b : Block} :
    b ∈ mapBlock f l id ↔ ∃ a ∈ l, b = (if a.blk_id = id then f a else a) := by
  induction l with
  | nil => simp [mapBlock]
  | cons a l ih =>
    simp only [mapBlock, List.mem_cons, ih]
    constructor
    · rintro (h | ⟨a', ha', hb⟩)
      · exact ⟨a, Or.inl rfl, h⟩
      · exact ⟨a', Or.inr ha', hb⟩
    · rintro ⟨a', (rfl | ha'), hb⟩
      · exact Or.inl hb
      · exact Or.inr ⟨a', ha', hb⟩

theorem mem_eraseBlock {l : List Block} {id : Nat} {b : Block} :
    b ∈ eraseBlock l id ↔ b ∈ l ∧ b.blk_id ≠ id := by
  induction l with
  | nil => simp [eraseBlock]
  | cons a l ih =>
    by_cases ha : a.blk_id = id
    · simp only [eraseBlock, if_pos ha, ih, List.mem_cons]
      constructor
      · rintro ⟨h1, h2⟩; exact ⟨Or.inr h1, h2⟩
      · rintro ⟨(rfl | h1), h2⟩
        · exact absurd ha h2
        · exact ⟨h1, h2⟩
    · simp only [eraseBlock, if_neg ha, List.mem_cons, ih]
      constructor
      · rintro (rfl | ⟨h1, h2⟩)
        · exact ⟨Or.inl rfl, ha⟩
        · exact ⟨Or.inr h1, h2⟩
      · rintro ⟨(rfl | h1), h2⟩
        · exact Or.inl rfl
        · exact Or.inr ⟨h1, h2⟩

theorem keys_mapBlock {f : Block → Block} {l : List Block} {id : Nat}
    (hf : ∀ b, (f b).blk_id = b.blk_id) :
    (mapBlock f l id).map Block.blk_id = l.map Block.blk_id := by
  induction l with
  | nil => simp [mapBlock]
  | cons a l ih =>
    by_cases ha : a.blk_id = id
    · simp [mapBlock, ha, hf a, ih]
    · simp [mapBlock, ha, ih]

theorem keys_eraseBlock_sublist {l : List Block} {id : Nat} :
    List.Sublist ((eraseBlock l id).map Block.blk_id) (l.map Block.blk_id) := by
  induction l with
  | nil => simp [eraseBlock]
  | cons a l ih =>
    by_cases ha : a.blk_id = id
    · simp only [eraseBlock, if_pos ha, List.map_cons]
      exact ih.cons _
    · simp only [eraseBlock, if_neg ha, List.map_cons]
      exact ih.cons₂ _

theorem length_mapBlock {f : Block → Block} {l : List Block} {id : Nat} :
    (mapBlock f l id).length = l.length := by
  induction l with
  | nil => rfl
  | cons a l ih => simp [mapBlock, ih]

theorem length_eraseBlock_le {l : List Block} {id : Nat} :
    (eraseBlock l id).length ≤ l.length := by
  induction l with
  | nil => simp [eraseBlock]
  | cons a l ih =>
    by_cases ha : a.blk_id = id
    · simp only [eraseBlock, if_pos ha]
      exact le_trans ih (Nat.le_succ _)
    · simp only [eraseBlock, if_neg ha, List.length_cons]
      exact Nat.succ_le_succ ih

theorem length_eraseBlock_lt {l : List Block} {id : Nat} {b : Block}
    (hb : b ∈ l) (hid : b.blk_id = id) :
    (eraseBlock l id).length < l.length := by
  induction l with
  | nil => simp at hb
  | cons a l ih =>
    rcases List.mem_cons.mp hb with rfl | hb'
    · simp only [eraseBlock, if_pos hid, List.length_cons]
      exact Nat.lt_succ_of_le length_eraseBlock_le
    · by_cases ha : a.blk_id = id
      · simp only [eraseBlock, if_pos ha, List.length_cons]
        exact Nat.lt_succ_of_le length_eraseBlock_le
      · simp only [eraseBlock, if_neg ha, List.length_cons]
        exact Nat.succ_lt_succ (ih hb')

theorem findBlk_of_mem_nodup {l : List Block} {a : Block}
    (hnd : (l.map Block.blk_id).Nodup) (ha : a ∈ l) :
    findBlk l a.blk_id = some a := by
  induction l with
  | nil => simp at ha
  | cons x l ih =>
    rcases List.mem_cons.mp ha with rfl | ha'
    · simp [findBlk]
    · have hx : x.blk_id ≠ a.blk_id := by
        intro hc
        have : x.blk_id ∈ l.map Block.blk_id := by
          rw [hc]; exact List.mem_map_of_mem _ ha'
        exact (List.nodup_cons.mp (by simpa using hnd)).1 this
      simp only [findBlk, if_neg hx]
      exact ih (List.nodup_cons.mp (by simpa using hnd)).2 ha'

/-! Preservation of well-formedness by each operation. -/

theorem wf_initCache (bs bl : Nat) : Wf (initCache bs bl) := by
  refine ⟨by simp [initCache], ?_, ?_, ?_, ?_, ?_, ?_⟩ <;> simp [initCache]

theorem wf_mapBlock_keep {c : BlockCache} {f : Block → Block} {id : Nat}
    (hwf : Wf c)
    (hf : ∀ b, (f b).blk_id = b.blk_id)
    (hr : ∀ b ∈ c.cache, b.blk_id = id → ((f b).ref_count = 0 ↔ b.ref_count = 0)) :
    Wf { c with cache := mapBlock f c.cache id } := by
  obtain ⟨hk, hq1, hq2, hn1, hn2, hd, hR⟩ := hwf
  refine ⟨?_, ?_, ?_, hn1, hn2, hd, ?_⟩
  · simpa [keys_mapBlock hf] using hk
  · intro q hq
    obtain ⟨b0, hb0, h0⟩ := hq1 q hq
    by_cases hqid : q = id
    · subst hqid
      refine ⟨f b0, ?_, ?_⟩
      · show findBlk (mapBlock f c.cache q) q = some (f b0)
        rw [findBlk_mapBlock_self hf]
        simpa [getBlock] using congrArg (Option.map f) hb0
      · obtain ⟨hmem, hbid⟩ := findBlk_eq_some (show findBlk c.cache q = some b0 from hb0)
        exact (hr b0 hmem hbid).mpr h0
    · exact ⟨b0, by simpa [getBlock, findBlk_mapBlock_ne hf hqid] using hb0, h0⟩
  · intro q hq
    obtain ⟨b0, hb0, h0⟩ := hq2 q hq
    by_cases hqid : q = id
    · subst hqid
      refine ⟨f b0, ?_, ?_⟩
      · show findBlk (mapBlock f c.cache q) q = some (f b0)
        rw [findBlk_mapBlock_self hf]
        simpa [getBlock] using congrArg (Option.map f) hb0
      · obtain ⟨hmem, hbid⟩ := findBlk_eq_some (show findBlk c.cache q = some b0 from hb0)
        exact (hr b0 hmem hbid).mpr h0
    · exact ⟨b0, by simpa [getBlock, findBlk_mapBlock_ne hf hqid] using hb0, h0⟩
  · intro b' hb' h0'
    obtain ⟨a, ha, hae⟩ := mem_mapBlock.mp hb'
    by_cases haid : a.blk_id = id
    · rw [if_pos haid] at hae
      subst hae
      have ha0 : a.ref_count = 0 := (hr a ha haid).mp h0'
      have := hR a ha ha0
      simpa [hf a] using this
    · rw [if_neg haid] at hae
      subst hae
      exact hR _ ha h0'

theorem wf_activate_lru {c : BlockCache} {id : Nat}
    (hwf : Wf c) (hmem : id ∈ c.lru_queue) :
    Wf { c with lru_queue := c.lru_queue.erase id,
                cache := mapBlock Block.refInc c.cache id } := by
  obtain ⟨hk, hq1, hq2, hn1, hn2, hd, hR⟩ := hwf
  have hf : ∀ b : Block, (Block.refInc b).blk_id = b.blk_id := fun _ => rfl
  refine ⟨?_, ?_, ?_, hn1.erase id, hn2, ?_, ?_⟩
  · simpa [keys_mapBlock hf] using hk
  · intro q hq
    obtain ⟨hne, hq'⟩ := hn1.mem_erase_iff.mp hq
    obtain ⟨b0, hb0, h0⟩ := hq1 q hq'
    exact ⟨b0, by simpa [getBlock, findBlk_mapBlock_ne hf hne] using hb0, h0⟩
  · intro q hq
    have hne : q ≠ id := fun hc => (hd id hmem) (hc ▸ hq)
    obtain ⟨b0, hb0, h0⟩ := hq2 q hq
    exact ⟨b0, by simpa [getBlock, findBlk_mapBlock_ne hf hne] using hb0, h0⟩
  · intro q hq
    exact hd q (List.mem_of_mem_erase hq)
  · intro b' hb' h0'
    obtain ⟨a, ha, hae⟩ := mem_mapBlock.mp hb'
    by_cases haid : a.blk_id = id
    · rw [if_pos haid] at hae
      subst hae
      simp [Block.refInc] at h0'
    · rw [if_neg haid] at hae
      subst hae
      rcases hR _ ha h0' with hl | hdq
      · exact Or.inl (hn1.mem_erase_iff.mpr ⟨haid, hl⟩)
      · exact Or.inr hdq

theorem wf_activate_dirty {c : BlockCache} {id : Nat}
    (hwf : Wf c) (hmem : id ∈ c.dirty_queue) :
    Wf { c with dirty_queue := c.dirty_queue.erase id,
                cache := mapBlock Block.refInc c.cache id } := by
  obtain ⟨hk, hq1, hq2, hn1, hn2, hd, hR⟩ := hwf
  have hf : ∀ b : Block, (Block.refInc b).blk_id = b.blk_id := fun _ => rfl
  refine ⟨?_, ?_, ?_, hn1, hn2.erase id, ?_, ?_⟩
  · simpa [keys_mapBlock hf] using hk
  · intro q hq
    have hne : q ≠ id := fun hc => (hd q hq) (hc ▸ hmem)
    obtain ⟨b0, hb0, h0⟩ := hq1 q hq
    exact ⟨b0, by simpa [getBlock, findBlk_mapBlock_ne hf hne] using hb0, h0⟩
  · intro q hq
    obtain ⟨hne, hq'⟩ := hn2.mem_erase_iff.mp hq
    obtain ⟨b0, hb0, h0⟩ := hq2 q hq'
    exact ⟨b0, by simpa [getBlock, findBlk_mapBlock_ne hf hne] using hb0, h0⟩
  · intro q hq hq2'
    exact hd q hq (List.mem_of_mem_erase hq2')
  · intro b' hb' h0'
    obtain ⟨a, ha, hae⟩ := mem_mapBlock.mp hb'
    by_cases haid : a.blk_id = id
    · rw [if_pos haid] at hae
      subst hae
      simp [Block.refInc] at h0'
    · rw [if_neg haid] at hae
      subst hae
      rcases hR _ ha h0' with hl | hdq
      · exact Or.inl hl
      · exact Or.inr (hn2.mem_erase_iff.mpr ⟨haid, hdq⟩)

theorem getBlock_mem_id_eq {c : BlockCache} {id : Nat} {b a : Block}
    (hwf : Wf c) (heq : getBlock c id = some b) (ha : a ∈ c.cache)
    (haid : a.blk_id = id) : a = b := by
  have hfind := findBlk_of_mem_nodup hwf.1 ha
  rw [haid] at hfind
  rw [getBlock] at heq
  rw [heq] at hfind
  exact (Option.some.inj hfind).symm

theorem wf_findGet {c : BlockCache} {id : Nat} {r : Option Block} {c' : BlockCache}
    (hwf : Wf c) (h : findGetBlock c id = some (r, c')) : Wf c' := by
  unfold findGetBlock at h
  split at h
  · simp only [Option.some.injEq, Prod.mk.injEq] at h
    obtain ⟨-, rfl⟩ := h
    exact hwf
  next b heq =>
    split at h
    next h0 =>
      split at h
      next hdirty =>
        split at h
        next hmem =>
          simp only [Option.some.injEq, Prod.mk.injEq] at h
          obtain ⟨-, rfl⟩ := h
          exact wf_activate_dirty hwf hmem
        next => simp at h
      next hdirty =>
        split at h
        next hmem =>
          simp only [Option.some.injEq, Prod.mk.injEq] at h
          obtain ⟨-, rfl⟩ := h
          exact wf_activate_lru hwf hmem
        next => simp at h
    next h0 =>
      simp only [Option.some.injEq, Prod.mk.injEq] at h
      obtain ⟨-, rfl⟩ := h
      refine wf_mapBlock_keep hwf (fun _ => rfl) ?_
      intro a ha haid
      obtain rfl := getBlock_mem_id_eq hwf heq ha haid
      constructor
      · intro hri
        simp [Block.refInc] at hri
      · intro hr0
        exact absurd hr0 h0

theorem not_mem_lru_of_active {c : BlockCache} {id : Nat} {b : Block}
    (hwf : Wf c) (heq : getBlock c id = some b) (h0 : b.ref_count ≠ 0) :
    id ∉ c.lru_queue := by
  intro hmem
  obtain ⟨b0, hb0, h00⟩ := hwf.2.1 id hmem
  rw [heq] at hb0
  exact h0 (Option.some.inj hb0 ▸ h00)

theorem not_mem_dirty_of_active {c : BlockCache} {id : Nat} {b : Block}
    (hwf : Wf c) (heq : getBlock c id = some b) (h0 : b.ref_count ≠ 0) :
    id ∉ c.dirty_queue := by
  intro hmem
  obtain ⟨b0, hb0, h00⟩ := hwf.2.2.1 id hmem
  rw [heq] at hb0
  exact h0 (Option.some.inj hb0 ▸ h00)

theorem wf_put_push_dirty {c : BlockCache} {id : Nat} {b : Block}
    (hwf : Wf c) (heq : getBlock c id = some b) (h0 : b.ref_count ≠ 0)
    (h1 : b.ref_count - 1 = 0) :
    Wf { c with cache := mapBlock Block.refDec c.cache id,
                dirty_queue := c.dirty_queue ++ [id] } := by
  have hnl := not_mem_lru_of_active hwf heq h0
  have hnd := not_mem_dirty_of_active hwf heq h0
  obtain ⟨hk, hq1, hq2, hn1, hn2, hd, hR⟩ := hwf
  have hf : ∀ x : Block, (Block.refDec x).blk_id = x.blk_id := fun _ => rfl
  refine ⟨?_, ?_, ?_, hn1, ?_, ?_, ?_⟩
  · simpa [keys_mapBlock hf] using hk
  · intro q hq
    have hne : q ≠ id := fun hc => hnl (hc ▸ hq)
    obtain ⟨b0, hb0, hb00⟩ := hq1 q hq
    exact ⟨b0, by simpa [getBlock, findBlk_mapBlock_ne hf hne] using hb0, hb00⟩
  · intro q hq
    rcases List.mem_append.mp hq with hq' | hq'
    · have hne : q ≠ id := fun hc => hnd (hc ▸ hq')
      obtain ⟨b0, hb0, hb00⟩ := hq2 q hq'
      exact ⟨b0, by simpa [getBlock, findBlk_mapBlock_ne hf hne] using hb0, hb00⟩
    · obtain rfl := List.mem_singleton.mp hq'
      refine ⟨b.refDec, ?_, h1⟩
      show findBlk (mapBlock Block.refDec c.cache q) q = some b.refDec
      rw [findBlk_mapBlock_self hf]
      simpa [getBlock] using congrArg (Option.map Block.refDec) heq
  · simpa [List.nodup_append, hn2] using hnd
  · intro q hq
    have hne : q ≠ id := fun hc => hnl (hc ▸ hq)
    simp only [List.mem_append, List.mem_singleton]
    rintro (hc | hc)
    · exact hd q hq hc
    · exact hne hc
  · intro b' hb' h0'
    obtain ⟨a, ha, hae⟩ := mem_mapBlock.mp hb'
    by_cases haid : a.blk_id = id
    · rw [if_pos haid] at hae
      subst hae
      refine Or.inr ?_
      show (Block.refDec a).blk_id ∈ c.dirty_queue ++ [id]
      rw [hf a, haid]
      simp
    · rw [if_neg haid] at hae
      subst hae
      rcases hR _ ha h0' with hl | hdq
      · exact Or.inl hl
      · exact Or.inr (List.mem_append_left _ hdq)

theorem wf_put_push_lru {c : BlockCache} {id : Nat} {b : Block}
    (hwf : Wf c) (heq : getBlock c id = some b) (h0 : b.ref_count ≠ 0)
    (h1 : b.ref_count - 1 = 0) :
    Wf { c with cache := mapBlock Block.refDec c.cache id,
                lru_queue := c.lru_queue ++ [id] } := by
  have hnl := not_mem_lru_of_active hwf heq h0
  have hnd := not_mem_dirty_of_active hwf heq h0
  obtain ⟨hk, hq1, hq2, hn1, hn2, hd, hR⟩ := hwf
  have hf : ∀ x : Block, (Block.refDec x).blk_id = x.blk_id := fun _ => rfl
  refine ⟨?_, ?_, ?_, ?_, hn2, ?_, ?_⟩
  · simpa [keys_mapBlock hf] using hk
  · intro q hq
    rcases List.mem_append.mp hq with hq' | hq'
    · have hne : q ≠ id := fun hc => hnl (hc ▸ hq')
      obtain ⟨b0, hb0, hb00⟩ := hq1 q hq'
      exact ⟨b0, by simpa [getBlock, findBlk_mapBlock_ne hf hne] using hb0, hb00⟩
    · obtain rfl := List.mem_singleton.mp hq'
      refine ⟨b.refDec, ?_, h1⟩
      show findBlk (mapBlock Block.refDec c.cache q) q = some b.refDec
      rw [findBlk_mapBlock_self hf]
      simpa [getBlock] using congrArg (Option.map Block.refDec) heq
  · intro q hq
    have hne : q ≠ id := fun hc => hnd (hc ▸ hq)
    obtain ⟨b0, hb0, hb00⟩ := hq2 q hq
    exact ⟨b0, by simpa [getBlock, findBlk_mapBlock_ne hf hne] using hb0, hb00⟩
  · simpa [List.nodup_append, hn1] using hnl
  · intro q hq
    rcases List.mem_append.mp hq with hq' | hq'
    · exact hd q hq'
    · obtain rfl := List.mem_singleton.mp hq'
      exact hnd
  · intro b' hb' h0'
    obtain ⟨a, ha, hae⟩ := mem_mapBlock.mp hb'
    by_cases haid : a.blk_id = id
    · rw [if_pos haid] at hae
      subst hae
      refine Or.inl ?_
      show (Block.refDec a).blk_id ∈ c.lru_queue ++ [id]
      rw [hf a, haid]
      simp
    · rw [if_neg haid] at hae
      subst hae
      rcases hR _ ha h0' with hl | hdq
      · exact Or.inl (List.mem_append_left _ hl)
      · exact Or.inr hdq

theorem wf_erase_of_not_idle {c : BlockCache} {id : Nat} {b : Block}
    (hwf : Wf c) (heq : getBlock c id = some b) (h0 : b.ref_count ≠ 0) :
    Wf { c with cache := eraseBlock c.cache id } := by
  have hnl := not_mem_lru_of_active hwf heq h0
  have hnd := not_mem_dirty_of_active hwf heq h0
  obtain ⟨hk, hq1, hq2, hn1, hn2, hd, hR⟩ := hwf
  refine ⟨?_, ?_, ?_, hn1, hn2, hd, ?_⟩
  · exact hk.sublist keys_eraseBlock_sublist
  · intro q hq
    have hne : q ≠ id := fun hc => hnl (hc ▸ hq)
    obtain ⟨b0, hb0, hb00⟩ := hq1 q hq
    exact ⟨b0, by simpa [getBlock, findBlk_eraseBlock_ne hne] using hb0, hb00⟩
  · intro q hq
    have hne : q ≠ id := fun hc => hnd (hc ▸ hq)
    obtain ⟨b0, hb0, hb00⟩ := hq2 q hq
    exact ⟨b0, by simpa [getBlock, findBlk_eraseBlock_ne hne] using hb0, hb00⟩
  · intro b' hb' h0'
    obtain ⟨ha, -⟩ := mem_eraseBlock.mp hb'
    exact hR _ ha h0'

theorem wf_put {c : BlockCache} {id : Nat} {c' : BlockCache}
    (hwf : Wf c) (h : putBlock c id = some c') : Wf c' := by
  unfold putBlock at h
  split at h
  · simp at h
  next b heq =>
    split at h
    · simp at h
    next h0 =>
      split at h
      next h1 =>
        split at h
        next hup =>
          split at h
          next hdirty =>
            obtain rfl := Option.some.inj h
            exact wf_put_push_dirty hwf heq h0 h1
          next hdirty =>
            obtain rfl := Option.some.inj h
            exact wf_put_push_lru hwf heq h0 h1
        next hup =>
          obtain rfl := Option.some.inj h
          exact wf_erase_of_not_idle hwf heq h0
      next h1 =>
        obtain rfl := Option.some.inj h
        refine wf_mapBlock_keep hwf (fun _ => rfl) ?_
        intro a ha haid
        obtain rfl := getBlock_mem_id_eq hwf heq ha haid
        constructor
        · intro hri
          exact absurd hri h1
        · intro hr0
          exact absurd hr0 h0

theorem findBlk_cons_ne {b : Block} {l : List Block} {j : Nat}
    (h : b.blk_id ≠ j) : findBlk (b :: l) j = findBlk l j := by
  simp [findBlk, h]

theorem findBlk_cons_self {b : Block} {l : List Block} {j : Nat}
    (h : b.blk_id = j) : findBlk (b :: l) j = some b := by
  simp [findBlk, h]

theorem wf_alloc_evict {c : BlockCache} {h id : Nat} {bh : Block}
    (hwf : Wf c) (hmem : h ∈ c.lru_queue) (hne : h ≠ id)
    (hbh : findBlk c.cache h = some bh)
    (hnone : findBlk (eraseBlock c.cache h) id = none) :
    Wf { c with lru_queue := c.lru_queue.erase h,
                cache := ((bh.moveBlkCache false h).moveBlkCache true id).refInc ::
                           eraseBlock c.cache h } := by
  have hj : id ≠ h := fun hc => hne hc.symm
  have hidn : findBlk c.cache id = none := by
    rw [← findBlk_eraseBlock_ne hj]
    exact hnone
  obtain ⟨hk, hq1, hq2, hn1, hn2, hd, hR⟩ := hwf
  have idnl : id ∉ c.lru_queue := by
    intro hmm
    obtain ⟨b0, hb0, -⟩ := hq1 id hmm
    rw [getBlock] at hb0
    rw [hidn] at hb0
    exact Option.noConfusion hb0
  have idnd : id ∉ c.dirty_queue := by
    intro hmm
    obtain ⟨b0, hb0, -⟩ := hq2 id hmm
    rw [getBlock] at hb0
    rw [hidn] at hb0
    exact Option.noConfusion hb0
  have hndh : h ∉ c.dirty_queue := hd h hmem
  have hb2id : ((bh.moveBlkCache false h).moveBlkCache true id).refInc.blk_id = id := rfl
  refine ⟨?_, ?_, ?_, hn1.erase h, hn2, ?_, ?_⟩
  · refine List.nodup_cons.mpr ⟨?_, hk.sublist keys_eraseBlock_sublist⟩
    rw [hb2id]
    intro hmm
    obtain ⟨a, ha, haeq⟩ := List.mem_map.mp hmm
    exact findBlk_eq_none.mp hnone a ha haeq
  · intro q hq
    obtain ⟨hqh, hq'⟩ := hn1.mem_erase_iff.mp hq
    have hqid : q ≠ id := fun hc => idnl (hc ▸ hq')
    obtain ⟨b0, hb0, hb00⟩ := hq1 q hq'
    refine ⟨b0, ?_, hb00⟩
    show findBlk _ q = some b0
    rw [findBlk_cons_ne (fun hc => hqid (hb2id ▸ hc).symm),
        findBlk_eraseBlock_ne hqh]
    exact hb0
  · intro q hq
    have hqid : q ≠ id := fun hc => idnd (hc ▸ hq)
    have hqh : q ≠ h := fun hc => hndh (hc ▸ hq)
    obtain ⟨b0, hb0, hb00⟩ := hq2 q hq
    refine ⟨b0, ?_, hb00⟩
    show findBlk _ q = some b0
    rw [findBlk_cons_ne (fun hc => hqid (hb2id ▸ hc).symm),
        findBlk_eraseBlock_ne hqh]
    exact hb0
  · intro q hq
    exact hd q (List.mem_of_mem_erase hq)
  · intro b' hb' h0'
    rcases List.mem_cons.mp hb' with rfl | hb''
    · simp [Block.refInc, Block.moveBlkCache] at h0'
    · obtain ⟨ha, hane⟩ := mem_eraseBlock.mp hb''
      rcases hR _ ha h0' with hl | hdq
      · exact Or.inl (hn1.mem_erase_iff.mpr ⟨hane, hl⟩)
      · exact Or.inr hdq

theorem wf_alloc_fresh {c : BlockCache} {id : Nat}
    (hwf : Wf c) (hidn : findBlk c.cache id = none) :
    Wf { c with cache :=
          { owner := true, blk_id := id, blk_size := c.blk_size,
            buf := List.replicate c.blk_size 0, ref_count := 1,
            uptodate := false, dirty := false } :: c.cache } := by
  obtain ⟨hk, hq1, hq2, hn1, hn2, hd, hR⟩ := hwf
  have idnl : id ∉ c.lru_queue := by
    intro hmm
    obtain ⟨b0, hb0, -⟩ := hq1 id hmm
    rw [getBlock] at hb0
    rw [hidn] at hb0
    exact Option.noConfusion hb0
  have idnd : id ∉ c.dirty_queue := by
    intro hmm
    obtain ⟨b0, hb0, -⟩ := hq2 id hmm
    rw [getBlock] at hb0
    rw [hidn] at hb0
    exact Option.noConfusion hb0
  refine ⟨?_, ?_, ?_, hn1, hn2, hd, ?_⟩
  · refine List.nodup_cons.mpr ⟨?_, hk⟩
    intro hmm
    obtain ⟨a, ha, haeq⟩ := List.mem_map.mp hmm
    exact findBlk_eq_none.mp hidn a ha haeq
  · intro q hq
    have hqid : q ≠ id := fun hc => idnl (hc ▸ hq)
    obtain ⟨b0, hb0, hb00⟩ := hq1 q hq
    refine ⟨b0, ?_, hb00⟩
    show findBlk _ q = some b0
    rw [findBlk_cons_ne (fun hc => hqid hc.symm)]
    exact hb0
  · intro q hq
    have hqid : q ≠ id := fun hc => idnd (hc ▸ hq)
    obtain ⟨b0, hb0, hb00⟩ := hq2 q hq
    refine ⟨b0, ?_, hb00⟩
    show findBlk _ q = some b0
    rw [findBlk_cons_ne (fun hc => hqid hc.symm)]
    exact hb0
  · intro b' hb' h0'
    rcases List.mem_cons.mp hb' with rfl | hb''
    · simp at h0'
    · exact hR _ hb'' h0'

theorem wf_alloc {c : BlockCache} {id : Nat} {r : Option Block} {c' : BlockCache}
    (hwf : Wf c) (hal : allocBlock c id = some (r, c')) : Wf c' := by
  unfold allocBlock at hal
  split at hal
  · split at hal
    next hlru =>
      simp only [Option.some.injEq, Prod.mk.injEq] at hal
      obtain ⟨-, rfl⟩ := hal
      exact hwf
    next h tl hlru =>
      split at hal
      next hhid =>
        subst hhid
        split at hal
        · simp at hal
        next b heq =>
          simp only [Option.some.injEq, Prod.mk.injEq] at hal
          obtain ⟨-, rfl⟩ := hal
          exact wf_activate_lru hwf (by rw [hlru]; exact List.mem_cons_self h tl)
      next hhid =>
        split at hal
        · simp at hal
        next bh hbh =>
          split at hal
          · simp at hal
          next hnone =>
            simp only [Option.some.injEq, Prod.mk.injEq] at hal
            obtain ⟨-, rfl⟩ := hal
            exact wf_alloc_evict hwf (by rw [hlru]; exact List.mem_cons_self h tl)
              hhid hbh hnone
  · split at hal
    next hdup =>
      simp only [Option.some.injEq, Prod.mk.injEq] at hal
      obtain ⟨-, rfl⟩ := hal
      exact hwf
    next hdup =>
      have hidn : getBlock c id = none := Option.not_isSome_iff_eq_none.mp hdup
      simp only [Option.some.injEq, Prod.mk.injEq] at hal
      obtain ⟨-, rfl⟩ := hal
      exact wf_alloc_fresh hwf hidn

theorem wf_drop {c : BlockCache} {id : Nat}
    (hwf : Wf c) (hok : stepOkB c (Op.drop id) = true) :
    Wf (dropBlock c id).2.2 := by
  unfold dropBlock
  split
  · exact hwf
  next b heq =>
    split
    · exact hwf
    next hgt =>
      have h0 : b.ref_count ≠ 0 := by
        simp only [stepOkB, heq] at hok
        simpa using hok
      exact wf_erase_of_not_idle hwf heq h0

theorem wf_getLru {c : BlockCache} {r : Option Block} {c' : BlockCache}
    (hwf : Wf c) (h : getLruBlock c = some (r, c')) : Wf c' := by
  unfold getLruBlock at h
  split at h
  · simp only [Option.some.injEq, Prod.mk.injEq] at h
    obtain ⟨-, rfl⟩ := h
    exact hwf
  next =>
    split at h
    · simp at h
    · simp at h
    next b c2 hfg =>
      simp only [Option.some.injEq, Prod.mk.injEq] at h
      obtain ⟨-, rfl⟩ := h
      exact wf_findGet hwf hfg

theorem wf_getDirty {c : BlockCache} {r : Option Block} {c' : BlockCache}
    (hwf : Wf c) (h : getDirtyBlock c = some (r, c')) : Wf c' := by
  unfold getDirtyBlock at h
  split at h
  · simp only [Option.some.injEq, Prod.mk.injEq] at h
    obtain ⟨-, rfl⟩ := h
    exact hwf
  next =>
    split at h
    · simp at h
    · simp at h
    next b c2 hfg =>
      simp only [Option.some.injEq, Prod.mk.injEq] at h
      obtain ⟨-, rfl⟩ := h
      exact wf_findGet hwf hfg

theorem wf_step {c : BlockCache} {o : Op} {c' : BlockCache}
    (hwf : Wf c) (hok : stepOkB c o = true) (h : step c o = some c') : Wf c' := by
  cases o with
  | alloc id =>
    obtain ⟨⟨r, c2⟩, hp, hc⟩ := Option.map_eq_some'.mp h
    exact hc ▸ wf_alloc hwf hp
  | findGet id =>
    obtain ⟨⟨r, c2⟩, hp, hc⟩ := Option.map_eq_some'.mp h
    exact hc ▸ wf_findGet hwf hp
  | put id => exact wf_put hwf h
  | getLru =>
    obtain ⟨⟨r, c2⟩, hp, hc⟩ := Option.map_eq_some'.mp h
    exact hc ▸ wf_getLru hwf hp
  | getDirty =>
    obtain ⟨⟨r, c2⟩, hp, hc⟩ := Option.map_eq_some'.mp h
    exact hc ▸ wf_getDirty hwf hp
  | drop id =>
    obtain rfl := Option.some.inj h
    exact wf_drop hwf hok
  | setDirty id =>
    obtain rfl := Option.some.inj h
    exact wf_mapBlock_keep hwf (fun _ => rfl) (fun b _ _ => Iff.rfl)
  | clearDirty id =>
    obtain rfl := Option.some.inj h
    exact wf_mapBlock_keep hwf (fun _ => rfl) (fun b _ _ => Iff.rfl)
  | setUptodate id =>
    obtain rfl := Option.some.inj h
    exact wf_mapBlock_keep hwf (fun _ => rfl) (fun b _ _ => Iff.rfl)
  | clearUptodate id =>
    obtain rfl := Option.some.inj h
    exact wf_mapBlock_keep hwf (fun _ => rfl) (fun b _ _ => Iff.rfl)

theorem wf_runOk {c : BlockCache} {ops : List Op} {c' : BlockCache}
    (hwf : Wf c) (h : runOk c ops = some c') : Wf c' := by
  induction ops generalizing c with
  | nil => exact (Option.some.inj h) ▸ hwf
  | cons o os ih =>
    unfold runOk at h
    split at h
    · obtain ⟨c1, hc1, hrest⟩ := Option.bind_eq_some.mp h
      next hok => exact ih (wf_step hwf hok hc1) hrest
    · simp at h

/-! Claim theorems. -/

/-- C1 (amended): for every state reachable from a freshly constructed
cache by public operations in which `drop_block` is only ever applied to a
block whose reference count is nonzero, the claimed queue invariant holds:
every ID in `lru_queue` and in `dirty_queue` is a key of `table` whose
block has `ref_count = 0`, no ID occurs in both queues, neither queue has
duplicates, and every table block with `ref_count = 0` is in one of the
two queues.  (Unrestricted `drop_block` breaks the invariant: dropping an
idle block leaves its ID dangling in its queue.) -/
theorem c1_queue_invariant_reachable (bs bl : Nat) (ops : List Op) (s : BlockCache)
    (hbs : 0 < bs) (hbl : 0 < bl)
    (h : runOk (initCache bs bl) ops = some s) : cacheInv s :=
  (wf_runOk (wf_initCache bs bl) h).2

/-- Witness for C1: a concrete disciplined run reaches a state satisfying
the invariant. -/
theorem c1_queue_invariant_reachable_witness :
    cacheInv { cache := [], dirty_queue := [], lru_queue := [],
               blk_size := 1, blk_limit := 1 } :=
  c1_queue_invariant_reachable 1 1 [Op.alloc 0, Op.put 0]
    { cache := [], dirty_queue := [], lru_queue := [],
      blk_size := 1, blk_limit := 1 }
    (by decide) (by decide) rfl

/-- Counterexample to C1 as stated: from a fresh cache of capacity 1, the
public-operation sequence alloc 0, set uptodate, put 0, drop 0 completes
and reaches a state whose `lru_queue` still holds ID 0 although the table
is empty, violating the claimed invariant. -/
theorem c1_counterexample :
    runOps (initCache 1 1) [Op.alloc 0, Op.setUptodate 0, Op.put 0, Op.drop 0]
      = some { cache := [], dirty_queue := [], lru_queue := [0],
               blk_size := 1, blk_limit := 1 } ∧
    ¬ cacheInv { cache := [], dirty_queue := [], lru_queue := [0],
                 blk_size := 1, blk_limit := 1 } := by
  refine ⟨rfl, ?_⟩
  intro hinv
  obtain ⟨b, hb, -⟩ := hinv.1 0 (by simp)
  simp [getBlock, findBlk] at hb

/-! Length accounting for the capacity bound. -/

theorem findGet_shape {c : BlockCache} {id : Nat} {r : Option Block} {c' : BlockCache}
    (h : findGetBlock c id = some (r, c')) :
    c'.cache.length = c.cache.length ∧ c'.blk_limit = c.blk_limit := by
  unfold findGetBlock at h
  split at h
  · simp only [Option.some.injEq, Prod.mk.injEq] at h
    obtain ⟨-, rfl⟩ := h
    exact ⟨rfl, rfl⟩
  next b heq =>
    split at h
    · split at h
      · split at h
        · simp only [Option.some.injEq, Prod.mk.injEq] at h
          obtain ⟨-, rfl⟩ := h
          exact ⟨length_mapBlock, rfl⟩
        · simp at h
      · split at h
        · simp only [Option.some.injEq, Prod.mk.injEq] at h
          obtain ⟨-, rfl⟩ := h
          exact ⟨length_mapBlock, rfl⟩
        · simp at h
    · simp only [Option.some.injEq, Prod.mk.injEq] at h
      obtain ⟨-, rfl⟩ := h
      exact ⟨length_mapBlock, rfl⟩

theorem put_shape {c : BlockCache} {id : Nat} {c' : BlockCache}
    (h : putBlock c id = some c') :
    c'.cache.length ≤ c.cache.length ∧ c'.blk_limit = c.blk_limit := by
  unfold putBlock at h
  split at h
  · simp at h
  next b heq =>
    split at h
    · simp at h
    · split at h
      · split at h
        · split at h
          · obtain rfl := Option.some.inj h
            exact ⟨le_of_eq length_mapBlock, rfl⟩
          · obtain rfl := Option.some.inj h
            exact ⟨le_of_eq length_mapBlock, rfl⟩
        · obtain rfl := Option.some.inj h
          exact ⟨length_eraseBlock_le, rfl⟩
      · obtain rfl := Option.some.inj h
        exact ⟨le_of_eq length_mapBlock, rfl⟩

theorem alloc_shape {c : BlockCache} {id : Nat} {r : Option Block} {c' : BlockCache}
    (h : allocBlock c id = some (r, c')) :
    (c.cache.length ≤ c.blk_limit → c'.cache.length ≤ c.blk_limit) ∧
      c'.blk_limit = c.blk_limit := by
  unfold allocBlock at h
  split at h
  · split at h
    · simp only [Option.some.injEq, Prod.mk.injEq] at h
      obtain ⟨-, rfl⟩ := h
      exact ⟨fun hle => hle, rfl⟩
    next hh tl hlru =>
      split at h
      · split at h
        · simp at h
        · simp only [Option.some.injEq, Prod.mk.injEq] at h
          obtain ⟨-, rfl⟩ := h
          exact ⟨fun hle => (le_of_eq length_mapBlock).trans hle, rfl⟩
      · split at h
        · simp at h
        next bh hbh =>
          split at h
          · simp at h
          · simp only [Option.some.injEq, Prod.mk.injEq] at h
            obtain ⟨-, rfl⟩ := h
            refine ⟨fun hle => ?_, rfl⟩
            obtain ⟨hmem, hbid⟩ := findBlk_eq_some hbh
            have hlt := length_eraseBlock_lt hmem hbid
            calc (((bh.moveBlkCache false hh).moveBlkCache true id).refInc ::
                    eraseBlock c.cache hh).length
                = (eraseBlock c.cache hh).length + 1 := by simp
              _ ≤ c.cache.length := hlt
              _ ≤ c.blk_limit := hle
  next hfull =>
    split at h
    · simp only [Option.some.injEq, Prod.mk.injEq] at h
      obtain ⟨-, rfl⟩ := h
      exact ⟨fun hle => hle, rfl⟩
    · simp only [Option.some.injEq, Prod.mk.injEq] at h
      obtain ⟨-, rfl⟩ := h
      refine ⟨fun _ => ?_, rfl⟩
      have hlt : c.cache.length < c.blk_limit := Nat.lt_of_not_le hfull
      simpa using hlt

theorem getLru_shape {c : BlockCache} {r : Option Block} {c' : BlockCache}
    (h : getLruBlock c = some (r, c')) :
    c'.cache.length = c.cache.length ∧ c'.blk_limit = c.blk_limit := by
  unfold getLruBlock at h
  split at h
  · simp only [Option.some.injEq, Prod.mk.injEq] at h
    obtain ⟨-, rfl⟩ := h
    exact ⟨rfl, rfl⟩
  · split at h
    · simp at h
    · simp at h
    next b c2 hfg =>
      simp only [Option.some.injEq, Prod.mk.injEq] at h
      obtain ⟨-, rfl⟩ := h
      exact findGet_shape hfg

theorem getDirty_shape {c : BlockCache} {r : Option Block} {c' : BlockCache}
    (h : getDirtyBlock c = some (r, c')) :
    c'.cache.length = c.cache.length ∧ c'.blk_limit = c.blk_limit := by
  unfold getDirtyBlock at h
  split at h
  · simp only [Option.some.injEq, Prod.mk.injEq] at h
    obtain ⟨-, rfl⟩ := h
    exact ⟨rfl, rfl⟩
  · split at h
    · simp at h
    · simp at h
    next b c2 hfg =>
      simp only [Option.some.injEq, Prod.mk.injEq] at h
      obtain ⟨-, rfl⟩ := h
      exact findGet_shape hfg

theorem drop_shape (c : BlockCache) (id : Nat) :
    (dropBlock c id).2.2.cache.length ≤ c.cache.length ∧
      (dropBlock c id).2.2.blk_limit = c.blk_limit := by
  unfold dropBlock
  split
  · exact ⟨le_refl _, rfl⟩
  · split
    · exact ⟨le_refl _, rfl⟩
    · exact ⟨length_eraseBlock_le, rfl⟩

theorem step_count {c : BlockCache} {o : Op} {c' : BlockCache}
    (h : step c o = some c') (hle : c.cache.length ≤ c.blk_limit) :
    c'.cache.length ≤ c'.blk_limit ∧ c'.blk_limit = c.blk_limit := by
  cases o with
  | alloc id =>
    obtain ⟨⟨r, c2⟩, hp, hc⟩ := Option.map_eq_some'.mp h
    obtain ⟨h1, h2⟩ := alloc_shape hp
    subst hc
    exact ⟨h2 ▸ h1 hle, h2⟩
  | findGet id =>
    obtain ⟨⟨r, c2⟩, hp, hc⟩ := Option.map_eq_some'.mp h
    obtain ⟨h1, h2⟩ := findGet_shape hp
    subst hc
    exact ⟨h2 ▸ h1 ▸ hle, h2⟩
  | put id =>
    obtain ⟨h1, h2⟩ := put_shape h
    exact ⟨h2 ▸ h1.trans hle, h2⟩
  | getLru =>
    obtain ⟨⟨r, c2⟩, hp, hc⟩ := Option.map_eq_some'.mp h
    obtain ⟨h1, h2⟩ := getLru_shape hp
    subst hc
    exact ⟨h2 ▸ h1 ▸ hle, h2⟩
  | getDirty =>
    obtain ⟨⟨r, c2⟩, hp, hc⟩ := Option.map_eq_some'.mp h
    obtain ⟨h1, h2⟩ := getDirty_shape hp
    subst hc
    exact ⟨h2 ▸ h1 ▸ hle, h2⟩
  | drop id =>
    obtain rfl := Option.some.inj h
    obtain ⟨h1, h2⟩ := drop_shape c id
    exact ⟨h2 ▸ h1.trans hle, h2⟩
  | setDirty id =>
    obtain rfl := Option.some.inj h
    exact ⟨(le_of_eq length_mapBlock).trans hle, rfl⟩
  | clearDirty id =>
    obtain rfl := Option.some.inj h
    exact ⟨(le_of_eq length_mapBlock).trans hle, rfl⟩
  | setUptodate id =>
    obtain rfl := Option.some.inj h
    exact ⟨(le_of_eq length_mapBlock).trans hle, rfl⟩
  | clearUptodate id =>
    obtain rfl := Option.some.inj h
    exact ⟨(le_of_eq length_mapBlock).trans hle, rfl⟩

theorem runOps_count {c : BlockCache} {ops : List Op} {c' : BlockCache}
    (h : runOps c ops = some c') (hle : c.cache.length ≤ c.blk_limit) :
    c'.cache.length ≤ c'.blk_limit := by
  induction ops generalizing c with
  | nil => exact (Option.some.inj h) ▸ hle
  | cons o os ih =>
    unfold runOps at h
    obtain ⟨c1, hc1, hrest⟩ := Option.bind_eq_some.mp h
    exact ih hrest (step_count hc1 hle).1

/-- C5: for every sequence of public operations run from a freshly
constructed cache (in particular every sequence of `alloc_block`,
`put_block` and `find_get_block` calls), the number of blocks in the
table never exceeds the capacity at any observation point. -/
theorem c5_count_le_capacity (bs bl : Nat) (ops : List Op) (s : BlockCache)
    (hbs : 0 < bs) (hbl : 0 < bl)
    (h : runOps (initCache bs bl) ops = some s) :
    s.count ≤ s.blk_limit :=
  runOps_count h (by simp [initCache])

/-- Witness for C5 at a concrete run. -/
theorem c5_count_le_capacity_witness :
    BlockCache.count { cache := [{ owner := true, blk_id := 0, blk_size := 1,
                                   buf := [0], ref_count := 1,
                                   uptodate := false, dirty := false }],
                       dirty_queue := [], lru_queue := [],
                       blk_size := 1, blk_limit := 1 }
      ≤ BlockCache.blk_limit { cache := [{ owner := true, blk_id := 0, blk_size := 1,
                                           buf := [0], ref_count := 1,
                                           uptodate := false, dirty := false }],
                               dirty_queue := [], lru_queue := [],
                               blk_size := 1, blk_limit := 1 } :=
  c5_count_le_capacity 1 1 [Op.alloc 0]
    { cache := [{ owner := true, blk_id := 0, blk_size := 1, buf := [0],
                  ref_count := 1, uptodate := false, dirty := false }],
      dirty_queue := [], lru_queue := [], blk_size := 1, blk_limit := 1 }
    (by decide) (by decide) rfl

/-- C2: for a block owned by the cache and present in its table (with its
reference count positive so the decrement is defined), `put_block`
decrements the reference count, and exactly when the result is 0: if
`uptodate` is false the block is removed from the table and placed in no
queue; else if `dirty` is true its ID is appended to the tail of
`dirty_queue`; else its ID is appended to the tail of `lru_queue`.  If
the count stays positive, the table keys and both queues are unchanged. -/
theorem c2_put_block (c : BlockCache) (id : Nat) (b : Block)
    (heq : getBlock c id = some b) (hr : 0 < b.ref_count) :
    (b.ref_count = 1 → b.uptodate = false →
      ∃ c', putBlock c id = some c' ∧
        getBlock c' id = none ∧
        c'.lru_queue = c.lru_queue ∧
        c'.dirty_queue = c.dirty_queue ∧
        (∀ j, j ≠ id → getBlock c' j = getBlock c j)) ∧
    (b.ref_count = 1 → b.uptodate = true → b.dirty = true →
      ∃ c', putBlock c id = some c' ∧
        c'.dirty_queue = c.dirty_queue ++ [id] ∧
        c'.lru_queue = c.lru_queue ∧
        getBlock c' id = some { b with ref_count := 0 } ∧
        (∀ j, j ≠ id → getBlock c' j = getBlock c j)) ∧
    (b.ref_count = 1 → b.uptodate = true → b.dirty = false →
      ∃ c', putBlock c id = some c' ∧
        c'.lru_queue = c.lru_queue ++ [id] ∧
        c'.dirty_queue = c.dirty_queue ∧
        getBlock c' id = some { b with ref_count := 0 } ∧
        (∀ j, j ≠ id → getBlock c' j = getBlock c j)) ∧
    (1 < b.ref_count →
      ∃ c', putBlock c id = some c' ∧
        c'.lru_queue = c.lru_queue ∧
        c'.dirty_queue = c.dirty_queue ∧
        getBlock c' id = some { b with ref_count := b.ref_count - 1 } ∧
        (∀ j, j ≠ id → getBlock c' j = getBlock c j)) := by
  have hne0 : ¬ b.ref_count = 0 := Nat.pos_iff_ne_zero.mp hr
  have hf : ∀ x : Block, (Block.refDec x).blk_id = x.blk_id := fun _ => rfl
  refine ⟨?_, ?_, ?_, ?_⟩
  · intro h1 hup
    refine ⟨{ c with cache := eraseBlock c.cache id }, ?_, ?_, rfl, rfl, ?_⟩
    · simp [putBlock, heq, hne0, h1, hup]
    · exact findBlk_eraseBlock_self
    · intro j hj
      exact findBlk_eraseBlock_ne hj
  · intro h1 hup hdirty
    refine ⟨{ c with cache := mapBlock Block.refDec c.cache id, dirty_queue := c.dirty_queue ++ [id] }, ?_, rfl, rfl, ?_, ?_⟩
    · simp [putBlock, heq, hne0, h1, hup, hdirty]
    · show findBlk (mapBlock Block.refDec c.cache id) id = _
      rw [findBlk_mapBlock_self hf]
      rw [show findBlk c.cache id = some b from heq]
      simp [Block.refDec, h1]
    · intro j hj
      exact findBlk_mapBlock_ne hf hj
  · intro h1 hup hdirty
    refine ⟨{ c with cache := mapBlock Block.refDec c.cache id, lru_queue := c.lru_queue ++ [id] }, ?_, rfl, rfl, ?_, ?_⟩
    · simp [putBlock, heq, hne0, h1, hup, hdirty]
    · show findBlk (mapBlock Block.refDec c.cache id) id = _
      rw [findBlk_mapBlock_self hf]
      rw [show findBlk c.cache id = some b from heq]
      simp [Block.refDec, h1]
    · intro j hj
      exact findBlk_mapBlock_ne hf hj
  · intro hgt
    have h10 : ¬ b.ref_count - 1 = 0 := by omega
    refine ⟨{ c with cache := mapBlock Block.refDec c.cache id }, ?_, rfl, rfl, ?_, ?_⟩
    · simp [putBlock, heq, hne0, h10]
    · show findBlk (mapBlock Block.refDec c.cache id) id = _
      rw [findBlk_mapBlock_self hf]
      rw [show findBlk c.cache id = some b from heq]
      simp [Block.refDec]
    · intro j hj
      exact findBlk_mapBlock_ne hf hj

/-- Witness for C2: releasing a concrete uptodate dirty block with one
reference appends it to the dirty queue. -/
theorem c2_put_block_witness :
    ∃ c', putBlock { cache := [{ owner := true, blk_id := 5, blk_size := 1, buf := [0],
                                 ref_count := 1, uptodate := true, dirty := true }],
                     dirty_queue := [], lru_queue := [],
                     blk_size := 1, blk_limit := 2 } 5 = some c' ∧
      c'.dirty_queue = [] ++ [5] ∧
      c'.lru_queue = [] ∧
      getBlock c' 5 = some { owner := true, blk_id := 5, blk_size := 1, buf := [0],
                             ref_count := 0, uptodate := true, dirty := true } ∧
      (∀ j, j ≠ 5 →
        getBlock c' j
          = getBlock { cache := [{ owner := true, blk_id := 5, blk_size := 1, buf := [0],
                                   ref_count := 1, uptodate := true, dirty := true }],
                       dirty_queue := [], lru_queue := [],
                       blk_size := 1, blk_limit := 2 } j) :=
  (c2_put_block
    { cache := [{ owner := true, blk_id := 5, blk_size := 1, buf := [0],
                  ref_count := 1, uptodate := true, dirty := true }],
      dirty_queue := [], lru_queue := [], blk_size := 1, blk_limit := 2 } 5
    { owner := true, blk_id := 5, blk_size := 1, buf := [0],
      ref_count := 1, uptodate := true, dirty := true }
    rfl (by decide)).2.1 rfl rfl rfl

/-- C4: when the table already holds at least capacity blocks and the LRU
queue is empty, `alloc_block` returns nothing for every requested id and
the cache state is completely unchanged; dirty idle blocks are never
evicted to make room. -/
theorem c4_alloc_full_no_lru (c : BlockCache) (id : Nat)
    (hfull : c.blk_limit ≤ c.count) (hlru : c.lru_queue = []) :
    allocBlock c id = some (none, c) := by
  have hfull' : c.blk_limit ≤ c.cache.length := hfull
  unfold allocBlock
  rw [if_pos hfull', hlru]

/-- Witness for C4: a concrete full cache of capacity 1 with an empty LRU
queue rejects an allocation. -/
theorem c4_alloc_full_no_lru_witness :
    allocBlock { cache := [{ owner := true, blk_id := 0, blk_size := 1, buf := [0],
                             ref_count := 0, uptodate := true, dirty := true }],
                 dirty_queue := [0], lru_queue := [],
                 blk_size := 1, blk_limit := 1 } 7
      = some (none, { cache := [{ owner := true, blk_id := 0, blk_size := 1, buf := [0],
                                  ref_count := 0, uptodate := true, dirty := true }],
                      dirty_queue := [0], lru_queue := [],
                      blk_size := 1, blk_limit := 1 }) :=
  c4_alloc_full_no_lru
    { cache := [{ owner := true, blk_id := 0, blk_size := 1, buf := [0],
                  ref_count := 0, uptodate := true, dirty := true }],
      dirty_queue := [0], lru_queue := [], blk_size := 1, blk_limit := 1 } 7
    (by decide) rfl

/-- C6: `find_get_block` returns nothing and leaves the cache unchanged on
a miss; on a hit it returns the block with its reference count
incremented, first removing the ID from `dirty_queue` (when the block is
idle and dirty) or from `lru_queue` (when idle and clean); it never
removes a block from the table. -/
theorem c6_find_get_block (c : BlockCache) (id : Nat) :
    (getBlock c id = none → findGetBlock c id = some (none, c)) ∧
    (∀ b, getBlock c id = some b → 0 < b.ref_count →
      ∃ c', findGetBlock c id = some (some b.refInc, c') ∧
        c'.lru_queue = c.lru_queue ∧
        c'.dirty_queue = c.dirty_queue ∧
        getBlock c' id = some b.refInc ∧
        (∀ j, j ≠ id → getBlock c' j = getBlock c j)) ∧
    (∀ b, getBlock c id = some b → b.ref_count = 0 → b.dirty = true →
      id ∈ c.dirty_queue →
      ∃ c', findGetBlock c id = some (some b.refInc, c') ∧
        c'.dirty_queue = c.dirty_queue.erase id ∧
        c'.lru_queue = c.lru_queue ∧
        getBlock c' id = some b.refInc ∧
        (∀ j, j ≠ id → getBlock c' j = getBlock c j)) ∧
    (∀ b, getBlock c id = some b → b.ref_count = 0 → b.dirty = false →
      id ∈ c.lru_queue →
      ∃ c', findGetBlock c id = some (some b.refInc, c') ∧
        c'.lru_queue = c.lru_queue.erase id ∧
        c'.dirty_queue = c.dirty_queue ∧
        getBlock c' id = some b.refInc ∧
        (∀ j, j ≠ id → getBlock c' j = getBlock c j)) := by
  have hf : ∀ x : Block, (Block.refInc x).blk_id = x.blk_id := fun _ => rfl
  refine ⟨?_, ?_, ?_, ?_⟩
  · intro hnone
    simp [findGetBlock, hnone]
  · intro b heq hr
    have hne0 : ¬ b.ref_count = 0 := Nat.pos_iff_ne_zero.mp hr
    refine ⟨{ c with cache := mapBlock Block.refInc c.cache id }, ?_, rfl, rfl, ?_, ?_⟩
    · simp [findGetBlock, heq, hne0]
    · show findBlk (mapBlock Block.refInc c.cache id) id = _
      rw [findBlk_mapBlock_self hf]
      rw [show findBlk c.cache id = some b from heq]
      rfl
    · intro j hj
      exact findBlk_mapBlock_ne hf hj
  · intro b heq h0 hdirty hmem
    refine ⟨{ c with dirty_queue := c.dirty_queue.erase id, cache := mapBlock Block.refInc c.cache id }, ?_, rfl, rfl, ?_, ?_⟩
    · simp [findGetBlock, heq, h0, hdirty, hmem]
    · show findBlk (mapBlock Block.refInc c.cache id) id = _
      rw [findBlk_mapBlock_self hf]
      rw [show findBlk c.cache id = some b from heq]
      rfl
    · intro j hj
      exact findBlk_mapBlock_ne hf hj
  · intro b heq h0 hdirty hmem
    refine ⟨{ c with lru_queue := c.lru_queue.erase id, cache := mapBlock Block.refInc c.cache id }, ?_, rfl, rfl, ?_, ?_⟩
    · simp [findGetBlock, heq, h0, hdirty, hmem]
    · show findBlk (mapBlock Block.refInc c.cache id) id = _
      rw [findBlk_mapBlock_self hf]
      rw [show findBlk c.cache id = some b from heq]
      rfl
    · intro j hj
      exact findBlk_mapBlock_ne hf hj

/-- Witness for C6: fetching a concrete idle dirty block removes its ID
from the dirty queue and hands it out with one reference. -/
theorem c6_find_get_block_witness :
    ∃ c', findGetBlock { cache := [{ owner := true, blk_id := 3, blk_size := 1, buf := [0],
                                     ref_count := 0, uptodate := true, dirty := true }],
                         dirty_queue := [3], lru_queue := [],
                         blk_size := 1, blk_limit := 2 } 3
        = some (some (Block.refInc { owner := true, blk_id := 3, blk_size := 1, buf := [0],
                                     ref_count := 0, uptodate := true, dirty := true }), c') ∧
      c'.dirty_queue = List.erase [3] 3 ∧
      c'.lru_queue = [] ∧
      getBlock c' 3 = some (Block.refInc { owner := true, blk_id := 3, blk_size := 1, buf := [0],
                                           ref_count := 0, uptodate := true, dirty := true }) ∧
      (∀ j, j ≠ 3 →
        getBlock c' j
          = getBlock { cache := [{ owner := true, blk_id := 3, blk_size := 1, buf := [0],
                                   ref_count := 0, uptodate := true, dirty := true }],
                       dirty_queue := [3], lru_queue := [],
                       blk_size := 1, blk_limit := 2 } j) :=
  (c6_find_get_block
    { cache := [{ owner := true, blk_id := 3, blk_size := 1, buf := [0],
                  ref_count := 0, uptodate := true, dirty := true }],
      dirty_queue := [3], lru_queue := [], blk_size := 1, blk_limit := 2 } 3).2.2.1
    { owner := true, blk_id := 3, blk_size := 1, buf := [0],
      ref_count := 0, uptodate := true, dirty := true }
    rfl rfl rfl (by decide)

/-- C8: under capacity, `alloc_block` with an id already present returns
nothing (without returning the existing block or creating a new one), and
with a free id inserts a fresh zero-filled block of `block_size` bytes
with reference count 1 and both flags clear, and returns it. -/
theorem c8_alloc_under_capacity (c : BlockCache) (id : Nat)
    (hcap : c.count < c.blk_limit) :
    (∀ b, getBlock c id = some b → allocBlock c id = some (none, c)) ∧
    (getBlock c id = none →
      ∃ nb c', allocBlock c id = some (some nb, c') ∧
        nb.ref_count = 1 ∧ nb.dirty = false ∧ nb.uptodate = false ∧
        nb.blk_id = id ∧ nb.buf = List.replicate c.blk_size 0 ∧
        getBlock c' id = some nb ∧
        c'.lru_queue = c.lru_queue ∧
        c'.dirty_queue = c.dirty_queue ∧
        (∀ j, j ≠ id → getBlock c' j = getBlock c j)) := by
  have hnotfull : ¬ c.blk_limit ≤ c.cache.length := Nat.not_le.mpr hcap
  constructor
  · intro b heq
    simp [allocBlock, hnotfull, heq]
  · intro hnone
    refine ⟨{ owner := true, blk_id := id, blk_size := c.blk_size,
              buf := List.replicate c.blk_size 0, ref_count := 1,
              uptodate := false, dirty := false },
            { c with cache := { owner := true, blk_id := id, blk_size := c.blk_size,
                                buf := List.replicate c.blk_size 0, ref_count := 1,
                                uptodate := false, dirty := false } :: c.cache },
            ?_, rfl, rfl, rfl, rfl, rfl, ?_, rfl, rfl, ?_⟩
    · simp [allocBlock, hnotfull, hnone]
    · exact findBlk_cons_self rfl
    · intro j hj
      exact findBlk_cons_ne (fun hc => hj hc.symm)

/-- Witness for C8: a duplicate allocation under capacity is rejected on
a concrete cache. -/
theorem c8_alloc_under_capacity_witness :
    allocBlock { cache := [{ owner := true, blk_id := 1, blk_size := 1, buf := [0],
                             ref_count := 1, uptodate := false, dirty := false }],
                 dirty_queue := [], lru_queue := [],
                 blk_size := 1, blk_limit := 5 } 1
      = some (none, { cache := [{ owner := true, blk_id := 1, blk_size := 1, buf := [0],
                                  ref_count := 1, uptodate := false, dirty := false }],
                      dirty_queue := [], lru_queue := [],
                      blk_size := 1, blk_limit := 5 }) :=
  (c8_alloc_under_capacity
    { cache := [{ owner := true, blk_id := 1, blk_size := 1, buf := [0],
                  ref_count := 1, uptodate := false, dirty := false }],
      dirty_queue := [], lru_queue := [], blk_size := 1, blk_limit := 5 } 1
    (by decide)).1
    { owner := true, blk_id := 1, blk_size := 1, buf := [0],
      ref_count := 1, uptodate := false, dirty := false }
    rfl

/-- C9: whenever `drop_block` succeeds on a block keyed in the table with
reference count at most 1 — including a dirty block or one whose caller
still holds the single outstanding reference — it returns true, removes
the block from the table, and the dropped block object ends with its
owner null, reference count 0, and dirty and uptodate flags cleared. -/
theorem c9_drop_block (c : BlockCache) (id : Nat) (b : Block)
    (heq : getBlock c id = some b) (hle : b.ref_count ≤ 1) :
    ∃ b' c', dropBlock c id = (true, some b', c') ∧
      b'.owner = false ∧ b'.ref_count = 0 ∧ b'.dirty = false ∧
      b'.uptodate = false ∧ b'.buf = b.buf ∧
      getBlock c' id = none ∧
      c'.lru_queue = c.lru_queue ∧
      c'.dirty_queue = c.dirty_queue ∧
      (∀ j, j ≠ id → getBlock c' j = getBlock c j) := by
  have hgt : ¬ 1 < b.ref_count := by omega
  refine ⟨b.moveBlkCache false id, { c with cache := eraseBlock c.cache id },
          ?_, rfl, rfl, rfl, rfl, rfl, ?_, rfl, rfl, ?_⟩
  · simp [dropBlock, heq, hgt]
  · exact findBlk_eraseBlock_self
  · intro j hj
    exact findBlk_eraseBlock_ne hj

/-- Witness for C9: dropping a concrete dirty block that the caller still
references (reference count 1) succeeds and detaches it. -/
theorem c9_drop_block_witness :
    ∃ b' c', dropBlock { cache := [{ owner := true, blk_id := 4, blk_size := 1, buf := [7],
                                     ref_count := 1, uptodate := true, dirty := true }],
                         dirty_queue := [], lru_queue := [],
                         blk_size := 1, blk_limit := 2 } 4 = (true, some b', c') ∧
      b'.owner = false ∧ b'.ref_count = 0 ∧ b'.dirty = false ∧
      b'.uptodate = false ∧ b'.buf = [7] ∧
      getBlock c' 4 = none ∧
      c'.lru_queue = [] ∧
      c'.dirty_queue = [] ∧
      (∀ j, j ≠ 4 →
        getBlock c' j
          = getBlock { cache := [{ owner := true, blk_id := 4, blk_size := 1, buf := [7],
                                   ref_count := 1, uptodate := true, dirty := true }],
                       dirty_queue := [], lru_queue := [],
                       blk_size := 1, blk_limit := 2 } j) :=
  c9_drop_block
    { cache := [{ owner := true, blk_id := 4, blk_size := 1, buf := [7],
                  ref_count := 1, uptodate := true, dirty := true }],
      dirty_queue := [], lru_queue := [], blk_size := 1, blk_limit := 2 } 4
    { owner := true, blk_id := 4, blk_size := 1, buf := [7],
      ref_count := 1, uptodate := true, dirty := true }
    rfl (by decide)

/-- C10: allocation at capacity whose requested id equals the head of the
LRU queue reuses that block in place with no flag or buffer reset: the
returned block is the table's block with only its reference count raised
to 1, keeping its uptodate flag and buffer, with dirty still false —
unlike the cross-id path, which routes through `move_blk_cache`. -/
theorem c10_alloc_reuse_in_place (c : BlockCache) (id : Nat) (t : List Nat) (b : Block)
    (hfull : c.blk_limit ≤ c.count) (hlru : c.lru_queue = id :: t)
    (heq : getBlock c id = some b) (h0 : b.ref_count = 0) (hdirty : b.dirty = false) :
    ∃ c', allocBlock c id = some (some b.refInc, c') ∧
      b.refInc.ref_count = 1 ∧
      b.refInc.uptodate = b.uptodate ∧
      b.refInc.buf = b.buf ∧
      b.refInc.dirty = false ∧
      c'.lru_queue = t ∧
      c'.dirty_queue = c.dirty_queue ∧
      getBlock c' id = some b.refInc ∧
      (∀ j, j ≠ id → getBlock c' j = getBlock c j) := by
  have hfull' : c.blk_limit ≤ c.cache.length := hfull
  have heq' : findBlk c.cache id = some b := heq
  have hf : ∀ x : Block, (Block.refInc x).blk_id = x.blk_id := fun _ => rfl
  refine ⟨{ c with lru_queue := c.lru_queue.erase id, cache := mapBlock Block.refInc c.cache id },
          ?_, ?_, rfl, rfl, ?_, ?_, rfl, ?_, ?_⟩
  · simp [allocBlock, hfull', hlru, heq']
  · simp [Block.refInc, h0]
  · show (Block.refInc b).dirty = false
    rw [show (Block.refInc b).dirty = b.dirty from rfl]
    exact hdirty
  · show c.lru_queue.erase id = t
    rw [hlru]
    exact List.erase_cons_head id t
  · show findBlk (mapBlock Block.refInc c.cache id) id = _
    rw [findBlk_mapBlock_self hf]
    rw [show findBlk c.cache id = some b from heq]
    rfl
  · intro j hj
    exact findBlk_mapBlock_ne hf hj

/-- Witness for C10: reusing the LRU head in place on a concrete cache
keeps its buffer contents and uptodate flag. -/
theorem c10_alloc_reuse_in_place_witness :
    ∃ c', allocBlock { cache := [{ owner := true, blk_id := 2, blk_size := 1, buf := [9],
                                   ref_count := 0, uptodate := true, dirty := false }],
                       dirty_queue := [], lru_queue := [2],
                       blk_size := 1, blk_limit := 1 } 2
        = some (some (Block.refInc { owner := true, blk_id := 2, blk_size := 1, buf := [9],
                                     ref_count := 0, uptodate := true, dirty := false }), c') ∧
      (Block.refInc { owner := true, blk_id := 2, blk_size := 1, buf := [9],
                      ref_count := 0, uptodate := true, dirty := false }).ref_count = 1 ∧
      (Block.refInc { owner := true, blk_id := 2, blk_size := 1, buf := [9],
                      ref_count := 0, uptodate := true, dirty := false }).uptodate
        = Block.uptodate { owner := true, blk_id := 2, blk_size := 1, buf := [9],
                           ref_count := 0, uptodate := true, dirty := false } ∧
      (Block.refInc { owner := true, blk_id := 2, blk_size := 1, buf := [9],
                      ref_count := 0, uptodate := true, dirty := false }).buf
        = Block.buf { owner := true, blk_id := 2, blk_size := 1, buf := [9],
                      ref_count := 0, uptodate := true, dirty := false } ∧
      (Block.refInc { owner := true, blk_id := 2, blk_size := 1, buf := [9],
                      ref_count := 0, uptodate := true, dirty := false }).dirty = false ∧
      c'.lru_queue = [] ∧
      c'.dirty_queue = [] ∧
      getBlock c' 2 = some (Block.refInc { owner := true, blk_id := 2, blk_size := 1, buf := [9],
                                           ref_count := 0, uptodate := true, dirty := false }) ∧
      (∀ j, j ≠ 2 →
        getBlock c' j
          = getBlock { cache := [{ owner := true, blk_id := 2, blk_size := 1, buf := [9],
                                   ref_count := 0, uptodate := true, dirty := false }],
                       dirty_queue := [], lru_queue := [2],
                       blk_size := 1, blk_limit := 1 } j) :=
  c10_alloc_reuse_in_place
    { cache := [{ owner := true, blk_id := 2, blk_size := 1, buf := [9],
                  ref_count := 0, uptodate := true, dirty := false }],
      dirty_queue := [], lru_queue := [2], blk_size := 1, blk_limit := 1 } 2 []
    { owner := true, blk_id := 2, blk_size := 1, buf := [9],
      ref_count := 0, uptodate := true, dirty := false }
    (by decide) rfl rfl rfl rfl

/-- C3 (amended): when `alloc_block(id)` runs with the table at capacity
and a non-empty LRU queue, it pops the head (oldest) ID; if that ID
equals `id` the block is reused in place, otherwise — provided `id` is
not itself a key of the table, without which the reinsertion assertion
fails — the evicted block is removed from the table under its old ID,
reassigned via `move_blk_cache` (reference count reset, dirty and
uptodate cleared) and reinserted under `id`; in either case the returned
block has reference count 1 and `lru_count` drops by one, so the block
reused is the head, the earliest-released idle-clean block. -/
theorem c3_alloc_eviction (c : BlockCache) (id hd : Nat) (t : List Nat) (bh : Block)
    (hfull : c.blk_limit ≤ c.count) (hlru : c.lru_queue = hd :: t)
    (hbh : getBlock c hd = some bh) :
    (hd = id → bh.ref_count = 0 →
      ∃ c', allocBlock c id = some (some bh.refInc, c') ∧
        bh.refInc.ref_count = 1 ∧
        c'.lruCount = c.lruCount - 1 ∧
        c'.lru_queue = t ∧
        getBlock c' id = some bh.refInc) ∧
    (hd ≠ id → getBlock c id = none →
      ∃ nb c', allocBlock c id = some (some nb, c') ∧
        nb = { bh with owner := true, blk_id := id, ref_count := 1,
                       dirty := false, uptodate := false } ∧
        nb.ref_count = 1 ∧
        nb.buf = bh.buf ∧
        getBlock c' hd = none ∧
        getBlock c' id = some nb ∧
        c'.lruCount = c.lruCount - 1 ∧
        c'.lru_queue = t ∧
        c'.dirty_queue = c.dirty_queue ∧
        (∀ j, j ≠ id → j ≠ hd → getBlock c' j = getBlock c j)) := by
  have hfull' : c.blk_limit ≤ c.cache.length := hfull
  have hbh' : findBlk c.cache hd = some bh := hbh
  have hf : ∀ x : Block, (Block.refInc x).blk_id = x.blk_id := fun _ => rfl
  constructor
  · intro hhid h0
    subst hhid
    refine ⟨{ c with lru_queue := c.lru_queue.erase hd, cache := mapBlock Block.refInc c.cache hd },
            ?_, ?_, ?_, ?_, ?_⟩
    · simp [allocBlock, hfull', hlru, hbh']
    · simp [Block.refInc, h0]
    · simp [BlockCache.lruCount, hlru, List.erase_cons_head]
    · show c.lru_queue.erase hd = t
      rw [hlru]
      exact List.erase_cons_head hd t
    · show findBlk (mapBlock Block.refInc c.cache hd) hd = _
      rw [findBlk_mapBlock_self hf, hbh']
      rfl
  · intro hne hid
    have hid' : findBlk c.cache id = none := hid
    have hidh : id ≠ hd := fun hc => hne hc.symm
    have herase : findBlk (eraseBlock c.cache hd) id = none := by
      rw [findBlk_eraseBlock_ne hidh]
      exact hid'
    refine ⟨((bh.moveBlkCache false hd).moveBlkCache true id).refInc,
            { c with lru_queue := c.lru_queue.erase hd,
                     cache := ((bh.moveBlkCache false hd).moveBlkCache true id).refInc ::
                                eraseBlock c.cache hd },
            ?_, rfl, rfl, rfl, ?_, ?_, ?_, ?_, rfl, ?_⟩
    · simp [allocBlock, hfull', hlru, hne, hbh', herase]
    · show findBlk _ hd = none
      rw [findBlk_cons_ne (fun hc => hidh (hc.symm.trans rfl).symm)]
      · exact findBlk_eraseBlock_self
    · exact findBlk_cons_self rfl
    · simp [BlockCache.lruCount, hlru, List.erase_cons_head]
    · show c.lru_queue.erase hd = t
      rw [hlru]
      exact List.erase_cons_head hd t
    · intro j hjid hjh
      show findBlk (((bh.moveBlkCache false hd).moveBlkCache true id).refInc ::
                      eraseBlock c.cache hd) j = findBlk c.cache j
      rw [findBlk_cons_ne (fun hc => hjid hc.symm)]
      exact findBlk_eraseBlock_ne hjh
/-- Witness for C3: a concrete at-capacity cache evicts the LRU head and
reinserts the block under the new id with cleared flags. -/
theorem c3_alloc_eviction_witness :
    ∃ nb c', allocBlock { cache := [{ owner := true, blk_id := 1, blk_size := 1, buf := [0],
                                      ref_count := 0, uptodate := true, dirty := false }],
                          dirty_queue := [], lru_queue := [1],
                          blk_size := 1, blk_limit := 1 } 6 = some (some nb, c') ∧
      nb = { owner := true, blk_id := 6, blk_size := 1, buf := [0],
             ref_count := 1, dirty := false, uptodate := false } ∧
      nb.ref_count = 1 ∧
      nb.buf = [0] ∧
      getBlock c' 1 = none ∧
      getBlock c' 6 = some nb ∧
      c'.lruCount = BlockCache.lruCount { cache := [{ owner := true, blk_id := 1, blk_size := 1,
                                                      buf := [0], ref_count := 0,
                                                      uptodate := true, dirty := false }],
                                          dirty_queue := [], lru_queue := [1],
                                          blk_size := 1, blk_limit := 1 } - 1 ∧
      c'.lru_queue = [] ∧
      c'.dirty_queue = [] ∧
      (∀ j, j ≠ 6 → j ≠ 1 →
        getBlock c' j
          = getBlock { cache := [{ owner := true, blk_id := 1, blk_size := 1, buf := [0],
                                   ref_count := 0, uptodate := true, dirty := false }],
                       dirty_queue := [], lru_queue := [1],
                       blk_size := 1, blk_limit := 1 } j) :=
  (c3_alloc_eviction
    { cache := [{ owner := true, blk_id := 1, blk_size := 1, buf := [0],
                  ref_count := 0, uptodate := true, dirty := false }],
      dirty_queue := [], lru_queue := [1], blk_size := 1, blk_limit := 1 } 6 1 []
    { owner := true, blk_id := 1, blk_size := 1, buf := [0],
      ref_count := 0, uptodate := true, dirty := false }
    (by decide) rfl rfl).2 (by decide) rfl

/-- Counterexample to C3 as stated: a reachable cache at capacity with a
non-empty LRU queue on which `alloc_block 0` returns no block at all (the
reinsertion assertion fails because id 0 is still a live table key), so
the claim that the call always hands back a block with reference count 1
is false. -/
theorem c3_counterexample :
    runOps (initCache 1 2) [Op.alloc 0, Op.alloc 1, Op.setUptodate 1, Op.put 1]
      = some { cache := [{ owner := true, blk_id := 1, blk_size := 1, buf := [0],
                           ref_count := 0, uptodate := true, dirty := false },
                         { owner := true, blk_id := 0, blk_size := 1, buf := [0],
                           ref_count := 1, uptodate := false, dirty := false }],
               dirty_queue := [], lru_queue := [1],
               blk_size := 1, blk_limit := 2 } ∧
    BlockCache.blk_limit { cache := [{ owner := true, blk_id := 1, blk_size := 1, buf := [0],
                                       ref_count := 0, uptodate := true, dirty := false },
                                     { owner := true, blk_id := 0, blk_size := 1, buf := [0],
                                       ref_count := 1, uptodate := false, dirty := false }],
                           dirty_queue := [], lru_queue := [1],
                           blk_size := 1, blk_limit := 2 }
      ≤ BlockCache.count { cache := [{ owner := true, blk_id := 1, blk_size := 1, buf := [0],
                                       ref_count := 0, uptodate := true, dirty := false },
                                     { owner := true, blk_id := 0, blk_size := 1, buf := [0],
                                       ref_count := 1, uptodate := false, dirty := false }],
                           dirty_queue := [], lru_queue := [1],
                           blk_size := 1, blk_limit := 2 } ∧
    allocBlock { cache := [{ owner := true, blk_id := 1, blk_size := 1, buf := [0],
                             ref_count := 0, uptodate := true, dirty := false },
                           { owner := true, blk_id := 0, blk_size := 1, buf := [0],
                             ref_count := 1, uptodate := false, dirty := false }],
                 dirty_queue := [], lru_queue := [1],
                 blk_size := 1, blk_limit := 2 } 0 = none :=
  ⟨rfl, by decide, rfl⟩

/-- C7: evidence that `alloc_block` raises an assertion (modelled as no
result) instead of returning nothing when asked for a duplicate live ID
at capacity: block 3 is live in the reachable state below, the cache is
at capacity with a non-empty LRU queue, and `alloc_block 3` aborts inside
`assert self.__add_block(block)`. -/
theorem c7_alloc_duplicate_live_id_assertion :
    runOps (initCache 2 2) [Op.alloc 3, Op.alloc 4, Op.setUptodate 4, Op.put 4]
      = some { cache := [{ owner := true, blk_id := 4, blk_size := 2, buf := [0, 0],
                           ref_count := 0, uptodate := true, dirty := false },
                         { owner := true, blk_id := 3, blk_size := 2, buf := [0, 0],
                           ref_count := 1, uptodate := false, dirty := false }],
               dirty_queue := [], lru_queue := [4],
               blk_size := 2, blk_limit := 2 } ∧
    getBlock { cache := [{ owner := true, blk_id := 4, blk_size := 2, buf := [0, 0],
                           ref_count := 0, uptodate := true, dirty := false },
                         { owner := true, blk_id := 3, blk_size := 2, buf := [0, 0],
                           ref_count := 1, uptodate := false, dirty := false }],
               dirty_queue := [], lru_queue := [4],
               blk_size := 2, blk_limit := 2 } 3
      = some { owner := true, blk_id := 3, blk_size := 2, buf := [0, 0],
               ref_count := 1, uptodate := false, dirty := false } ∧
    allocBlock { cache := [{ owner := true, blk_id := 4, blk_size := 2, buf := [0, 0],
                             ref_count := 0, uptodate := true, dirty := false },
                           { owner := true, blk_id := 3, blk_size := 2, buf := [0, 0],
                             ref_count := 1, uptodate := false, dirty := false }],
                 dirty_queue := [], lru_queue := [4],
                 blk_size := 2, blk_limit := 2 } 3 = none :=
  ⟨rfl, rfl, rfl⟩
